import Mathlib

/-!
# Verification of the truefont geometry and path-encoding core

Shallow embedding of `freetype/geom/geom.go` and the `Path` container of the
`raster` package (`Path.String`, the builder operations and
`addPathReversed`).

Machine integers are modelled as `Int` together with explicit wrapping:

* Go's `Fix32` is `int32`; every primitive `int32` operation that can
  overflow is followed by `wrap32`, which reduces into `[-2^31, 2^31)`.
* Go's `int64` intermediates (used by `Dot`, `Norm` and the 45°-class
  rotations) are exact for all `int32`-range operands, so they are modelled
  by exact `Int` arithmetic; the final conversion `Fix32(q)` back to `int32`
  is `wrap32`.
* Go's integer division truncates toward zero: `Int.tdiv`.  Go's `%` is
  `Int.tmod`.

`Path` values are flat `List Int` buffers exactly as in the source; the Go
`panic`s (bad tag, index out of range) are modelled by `Option`, with `none`
for a panic.  The `Adder` interface is modelled by the trace of calls it
receives (`Event`).
-/

namespace TrueFont

/-- Reduction of an unbounded integer into the `int32` range
`[-2^31, 2^31)`: the effect of Go's wrapping `int32` arithmetic. -/
def wrap32 (n : Int) : Int := (n + 2147483648) % 4294967296 - 2147483648

/-- `n` is in the `int32` range (a representable 24.8 value). -/
def InRange32 (n : Int) : Prop := -2147483648 ≤ n ∧ n < 2147483648

instance (n : Int) : Decidable (InRange32 n) := by unfold InRange32; infer_instance

/-- `MaxAbs` from geom.go: negates negative arguments (wrapping `int32`
negation) and returns the larger. -/
def MaxAbs (a b : Int) : Int :=
  let a' := if a < 0 then wrap32 (-a) else a
  let b' := if b < 0 then wrap32 (-b) else b
  if a' < b' then b' else a'

/-- A two-dimensional point in 24.8 fixed point format. -/
structure Point where
  X : Int
  Y : Int
deriving DecidableEq, Repr

/-- `Pt` from geom.go. -/
def Pt (x y : Int) : Point := ⟨x, y⟩

/-- `Point.Mul` from geom.go: `Point{p.X * k / 256, p.Y * k / 256}` — the
product is computed in `int32` (wrapping) before the truncating division. -/
def Point.Mul (p : Point) (k : Int) : Point :=
  ⟨(wrap32 (p.X * k)).tdiv 256, (wrap32 (p.Y * k)).tdiv 256⟩

/-- `Point.Neg` from geom.go: `Point{-p.X, -p.Y}` with wrapping `int32`
negation. -/
def Point.Neg (p : Point) : Point := ⟨wrap32 (-p.X), wrap32 (-p.Y)⟩

/-- `Point.Rot45CW` from geom.go: int64 intermediates
`qx := (+px - py) * 181 / 256`, `qy := (+px + py) * 181 / 256`, followed by
the narrowing conversion `Fix32(q)` back to `int32`. -/
def Point.Rot45CW (p : Point) : Point :=
  ⟨wrap32 (((p.X - p.Y) * 181).tdiv 256), wrap32 (((p.X + p.Y) * 181).tdiv 256)⟩

/-- `Point.Rot90CW` from geom.go: `Point{-p.Y, p.X}` with wrapping `int32`
negation. -/
def Point.Rot90CW (p : Point) : Point := ⟨wrap32 (-p.Y), p.X⟩

/-- Eight-fold application of `Rot45CW`. -/
def rot45cw8 (p : Point) : Point :=
  (((((((p.Rot45CW).Rot45CW).Rot45CW).Rot45CW).Rot45CW).Rot45CW).Rot45CW).Rot45CW

/-- A Path is a flat sequence of 24.8 scalars (`[]geom.Fix32`, modelled as `List Int`). -/
abbrev Path := List Int

/-- `Path.Start`: appends the record `0, a.X, a.Y, 0` (the `grow` +
element-assignment sequence in the source amounts to an append). -/
def Path.Start (p : Path) (a : Point) : Path := p ++ [0, a.X, a.Y, 0]

/-- `Path.Add1`: appends the record `1, b.X, b.Y, 1`. -/
def Path.Add1 (p : Path) (b : Point) : Path := p ++ [1, b.X, b.Y, 1]

/-- `Path.Add2`: appends the record `2, b.X, b.Y, c.X, c.Y, 2`. -/
def Path.Add2 (p : Path) (b c : Point) : Path :=
  p ++ [2, b.X, b.Y, c.X, c.Y, 2]

/-- `Path.Add3`: appends the record `3, b.X, b.Y, c.X, c.Y, d.X, d.Y, 3`. -/
def Path.Add3 (p : Path) (b c d : Point) : Path :=
  p ++ [3, b.X, b.Y, c.X, c.Y, d.X, d.Y, 3]

/-- `Path.Clear`: `*p = (*p)[0:0]`. -/
def Path.Clear (_p : Path) : Path := []

/-- `Path.AddPath`: value copy of `q`'s scalars onto the end of `p`. -/
def Path.AddPath (p q : Path) : Path := p ++ q

/-- Go slice indexing `q[i]` with an `int` index: `some` element when
`0 ≤ i < len q`, `none` (panic) otherwise. -/
def getF (q : Path) (i : Int) : Option Int :=
  if 0 ≤ i then q[i.toNat]? else none

/-- One token of the diagnostic string produced by `Path.String`:
`"S0[x y]"`, `"A1[x y]"`, `"A2[x y x y]"` or `"A3[x y x y x y]"`. -/
inductive Token where
  | S0 (a : Point)
  | A1 (b : Point)
  | A2 (b c : Point)
  | A3 (b c d : Point)
deriving DecidableEq, Repr

/-- The decode loop of `Path.String`: at index `i`, while `i < len(p)`, the
leading tag selects the record; payload scalars are read from the slices
`p[i+1:i+3]` / `p[i+1:i+5]` / `p[i+1:i+7]` and `i` advances by 4, 4, 6 or 8.
An unknown tag (or an out-of-bounds slice) panics — `none`.  The `fuel`
argument only bounds the recursion; it is never exhausted on a real run
(fuel `len q + 1` suffices, which the wrapper supplies). -/
def stringAux (q : Path) : Nat → Int → Option (List Token)
  | 0, _ => none
  | fuel + 1, i =>
    if i < (q.length : Int) then
      match getF q i with
      | none => none
      | some t =>
        if t = 0 then
          match getF q (i + 1), getF q (i + 2) with
          | some x, some y => (stringAux q fuel (i + 4)).map (Token.S0 ⟨x, y⟩ :: ·)
          | _, _ => none
        else if t = 1 then
          match getF q (i + 1), getF q (i + 2) with
          | some x, some y => (stringAux q fuel (i + 4)).map (Token.A1 ⟨x, y⟩ :: ·)
          | _, _ => none
        else if t = 2 then
          match getF q (i + 1), getF q (i + 2), getF q (i + 3), getF q (i + 4) with
          | some bx, some bY, some cx, some cy =>
            (stringAux q fuel (i + 6)).map (Token.A2 ⟨bx, bY⟩ ⟨cx, cy⟩ :: ·)
          | _, _, _, _ => none
        else if t = 3 then
          match getF q (i + 1), getF q (i + 2), getF q (i + 3), getF q (i + 4),
                getF q (i + 5), getF q (i + 6) with
          | some bx, some bY, some cx, some cy, some dx, some dy =>
            (stringAux q fuel (i + 8)).map (Token.A3 ⟨bx, bY⟩ ⟨cx, cy⟩ ⟨dx, dy⟩ :: ·)
          | _, _, _, _, _, _ => none
        else none
    else some []

/-- `Path.String`, at the token level: the sequence of `S0`/`A1`/`A2`/`A3`
tokens (with their coordinate payloads) that the decode loop emits, or
`none` when the loop panics on a bad tag or a short buffer. -/
def Path.decode (q : Path) : Option (List Token) := stringAux q (q.length + 1) 0

/-- One call received by an `Adder` (the curve-builder interface of the
raster package). -/
inductive Event where
  | start (a : Point)
  | add1 (b : Point)
  | add2 (b c : Point)
  | add3 (b c d : Point)
deriving DecidableEq, Repr

/-- The backward walk of `addPathReversed`, with all reads expressed at the
original index `i` (the trailing tag of the current record).  Go's
`case 1: i -= 4; p.Add1(Pt(q[i-2], q[i-1]))` reads `q[i-6], q[i-5]` and
loops at `i-4`; `case 2` reads `q[i-4], q[i-3]` and `q[i-8], q[i-7]` and
loops at `i-6`; `case 3` reads `q[i-4], q[i-3]`, `q[i-6], q[i-5]` and
`q[i-10], q[i-9]` and loops at `i-8`.  A tag `0` ends the walk; any other
value panics (`none`), as does any out-of-range index.  `fuel` bounds the
recursion only. -/
def revWalkAux (q : Path) : Nat → Int → Option (List Event)
  | 0, _ => none
  | fuel + 1, i =>
    match getF q i with
    | none => none
    | some t =>
      if t = 0 then some []
      else if t = 1 then
        match getF q (i - 6), getF q (i - 5) with
        | some x, some y => (revWalkAux q fuel (i - 4)).map (Event.add1 ⟨x, y⟩ :: ·)
        | _, _ => none
      else if t = 2 then
        match getF q (i - 4), getF q (i - 3), getF q (i - 8), getF q (i - 7) with
        | some bx, some bY, some cx, some cy =>
          (revWalkAux q fuel (i - 6)).map (Event.add2 ⟨bx, bY⟩ ⟨cx, cy⟩ :: ·)
        | _, _, _, _ => none
      else if t = 3 then
        match getF q (i - 4), getF q (i - 3), getF q (i - 6), getF q (i - 5),
              getF q (i - 10), getF q (i - 9) with
        | some bx, some bY, some cx, some cy, some dx, some dy =>
          (revWalkAux q fuel (i - 8)).map (Event.add3 ⟨bx, bY⟩ ⟨cx, cy⟩ ⟨dx, dy⟩ :: ·)
        | _, _, _, _, _, _ => none
      else none

/-- `addPathReversed(p, q)`: replays the tail contour of `q` backward onto
the adder `p`.  The result is `p`'s event trace extended by the calls the
walk makes, or `none` when the walk panics.  An empty `q` emits nothing. -/
def addPathReversed (p : List Event) (q : Path) : Option (List Event) :=
  if q.length = 0 then some p
  else (revWalkAux q (q.length + 1) ((q.length : Int) - 1)).map (p ++ ·)

/-! ## Well-formedness (the spec's invariant, §3 of spec.md)

A well-formed Path is a concatenation of zero or more contours; a contour is
one tag-0 record followed by zero or more tag-1/2/3 records; every record is
framed by its tag at both ends, with lengths 4, 4, 6, 8. -/

/-- A curve segment of a contour (tag 1, 2 or 3). -/
inductive Seg where
  | s1 (b : Point)
  | s2 (b c : Point)
  | s3 (b c d : Point)
deriving DecidableEq, Repr

/-- Encoding of one segment record. -/
def segEnc : Seg → List Int
  | .s1 b => [1, b.X, b.Y, 1]
  | .s2 b c => [2, b.X, b.Y, c.X, c.Y, 2]
  | .s3 b c d => [3, b.X, b.Y, c.X, c.Y, d.X, d.Y, 3]

/-- Encoding of a list of segment records. -/
def segsEnc (ss : List Seg) : List Int := (ss.map segEnc).flatten

/-- The tag-0 record opening a contour. -/
def startRec (a : Point) : List Int := [0, a.X, a.Y, 0]

/-- Encoding of a whole contour: start record, then its segments. -/
def contourEnc (a : Point) (ss : List Seg) : List Int := startRec a ++ segsEnc ss

/-- Encoding of a list of contours. -/
def pathEnc (cs : List (Point × List Seg)) : List Int :=
  (cs.map fun c => contourEnc c.1 c.2).flatten

/-- Well-formed buffer: a concatenation of zero or more contours. -/
def WF (q : Path) : Prop := ∃ cs, q = pathEnc cs

/-- Endpoint of a segment (the point the pen is at after drawing it). -/
def segEnd : Seg → Point
  | .s1 b => b
  | .s2 _ c => c
  | .s3 _ _ d => d

/-- Endpoint of a contour. -/
def contourEnd (a : Point) (ss : List Seg) : Point :=
  match ss.getLast? with
  | none => a
  | some s => segEnd s

/-- The single call `addPathReversed` makes for a segment whose predecessor
record ends at `prev`: a reversed line emits `Add1(prev)`, a reversed
quadratic reuses its control point (`Add2(b, prev)`), a reversed cubic swaps
its two control points (`Add3(c, b, prev)`). -/
def revEvent (prev : Point) : Seg → Event
  | .s1 _ => .add1 prev
  | .s2 b _ => .add2 b prev
  | .s3 b c _ => .add3 c b prev

/-- The calls emitted when a contour starting at `prev` with segments `ss`
is replayed backward: the last segment's call first, ending with the call
for the first segment. -/
def revEvents (prev : Point) : List Seg → List Event
  | [] => []
  | s :: rest => revEvents (segEnd s) rest ++ [revEvent prev s]

/-- A record of the flat stream, as read forward by `Path.String`. -/
inductive Rec where
  | rStart (a : Point)
  | rSeg (s : Seg)
deriving DecidableEq, Repr

/-- Encoding of a record. -/
def recEnc : Rec → List Int
  | .rStart a => startRec a
  | .rSeg s => segEnc s

/-- Encoding of a record list. -/
def recsEnc (rs : List Rec) : List Int := (rs.map recEnc).flatten

/-- Token emitted by `Path.String` for a record. -/
def recTok : Rec → Token
  | .rStart a => .S0 a
  | .rSeg (.s1 b) => .A1 b
  | .rSeg (.s2 b c) => .A2 b c
  | .rSeg (.s3 b c d) => .A3 b c d

/-- The records of a contour list, in stream order. -/
def toRecs (cs : List (Point × List Seg)) : List Rec :=
  cs.flatMap fun c => Rec.rStart c.1 :: c.2.map Rec.rSeg

-- sanity checks (concrete evaluations of the embedding)
example : Path.decode (Path.Add1 (Path.Start [] ⟨10, 20⟩) ⟨30, 40⟩) =
    some [Token.S0 ⟨10, 20⟩, Token.A1 ⟨30, 40⟩] := by decide

example :
    addPathReversed [Event.start ⟨7, 8⟩]
      (Path.Add2 (Path.Add1 (Path.Start [] ⟨1, 2⟩) ⟨3, 4⟩) ⟨5, 6⟩ ⟨7, 8⟩) =
    some [Event.start ⟨7, 8⟩, Event.add2 ⟨5, 6⟩ ⟨3, 4⟩, Event.add1 ⟨1, 2⟩] := by decide

example : MaxAbs 5 (-5) = 5 := by decide
example : Point.Mul ⟨65536, 0⟩ 65536 = ⟨0, 0⟩ := by decide
example : rot45cw8 ⟨2, 0⟩ = ⟨0, 0⟩ := by decide
example : rot45cw8 ⟨256, 0⟩ = ⟨251, 0⟩ := by decide

/-- `wrap32` is the identity on the `int32` range. -/
theorem wrap32_eq_self {n : Int} (h : InRange32 n) : wrap32 n = n := by
  unfold wrap32; unfold InRange32 at h; omega

/-! ## Helper lemmas about `getF` and the encodings -/

theorem getF_append_left (r l : List Int) (i : Int) (hi : i < (r.length : Int)) :
    getF (r ++ l) i = getF r i := by
  unfold getF
  by_cases h0 : 0 ≤ i
  · rw [if_pos h0, if_pos h0, List.getElem?_append_left (by omega)]
  · rw [if_neg h0, if_neg h0]

theorem getF_append_right (r l : List Int) (j : Int) (hj : 0 ≤ j) :
    getF (r ++ l) ((r.length : Int) + j) = getF l j := by
  unfold getF
  rw [if_pos (by omega), if_pos hj]
  have ht : ((r.length : Int) + j).toNat = r.length + j.toNat := by omega
  rw [ht, List.getElem?_append_right (by omega)]
  congr 1
  omega

theorem segsEnc_cons (s : Seg) (ss : List Seg) :
    segsEnc (s :: ss) = segEnc s ++ segsEnc ss := by
  simp [segsEnc]

theorem segsEnc_append (ss ts : List Seg) :
    segsEnc (ss ++ ts) = segsEnc ss ++ segsEnc ts := by
  simp [segsEnc]

theorem pathEnc_append (cs ds : List (Point × List Seg)) :
    pathEnc (cs ++ ds) = pathEnc cs ++ pathEnc ds := by
  simp [pathEnc]

theorem contourEnc_snoc (a : Point) (ss : List Seg) (s : Seg) :
    contourEnc a (ss ++ [s]) = contourEnc a ss ++ segEnc s := by
  simp [contourEnc, segsEnc_append, segsEnc]

theorem segEnc_length_pos (s : Seg) : 4 ≤ (segEnc s).length := by
  cases s <;> simp [segEnc]

theorem segsEnc_length (ss : List Seg) : ss.length ≤ (segsEnc ss).length := by
  induction ss with
  | nil => simp [segsEnc]
  | cons s ss ih =>
    rw [segsEnc_cons, List.length_append]
    have := segEnc_length_pos s
    simpa using by omega

/-! ## C2: the builder operations preserve well-formedness -/

theorem WF_nil : WF ([] : Path) := ⟨[], rfl⟩

theorem WF_start (q : Path) (a : Point) (h : WF q) : WF (q.Start a) := by
  obtain ⟨cs, rfl⟩ := h
  exact ⟨cs ++ [(a, [])], by simp [Path.Start, pathEnc_append, pathEnc, contourEnc,
    startRec, segsEnc]⟩

theorem WF_addSeg (q : Path) (s : Seg) (h : WF q) (hne : q ≠ []) :
    WF (q ++ segEnc s) := by
  obtain ⟨cs, rfl⟩ := h
  rcases List.eq_nil_or_concat cs with rfl | ⟨L, ⟨a, ss⟩, rfl⟩
  · simp [pathEnc] at hne
  · refine ⟨L ++ [(a, ss ++ [s])], ?_⟩
    rw [List.concat_eq_append, pathEnc_append, pathEnc_append]
    simp only [pathEnc, List.map_cons, List.map_nil, List.flatten_cons,
      List.flatten_nil, List.append_nil, contourEnc_snoc, List.append_assoc]

theorem WF_addPath (q r : Path) (hq : WF q) (hr : WF r) : WF (q.AddPath r) := by
  obtain ⟨cs, rfl⟩ := hq
  obtain ⟨ds, rfl⟩ := hr
  exact ⟨cs ++ ds, by rw [Path.AddPath, pathEnc_append]⟩

/-- C2: starting from any well-formed buffer, each of `Start`, `Add1`,
`Add2`, `Add3` (when a contour has been started, i.e. the buffer is
nonempty), `Clear` and `AddPath` of another well-formed Path leaves the
buffer well-formed; the record lengths are 4, 4, 6 and 8 for tags 0, 1, 2
and 3. -/
theorem builder_preserves_WF (q r : Path) (a b c d : Point)
    (hq : WF q) (hr : WF r) :
    WF (q.Start a) ∧
    (q ≠ [] → WF (q.Add1 b)) ∧
    (q ≠ [] → WF (q.Add2 b c)) ∧
    (q ≠ [] → WF (q.Add3 b c d)) ∧
    WF q.Clear ∧
    WF (q.AddPath r) ∧
    (Path.Start [] a).length = 4 ∧ (Path.Add1 [] b).length = 4 ∧
    (Path.Add2 [] b c).length = 6 ∧ (Path.Add3 [] b c d).length = 8 := by
  refine ⟨WF_start q a hq, ?_, ?_, ?_, WF_nil, WF_addPath q r hq hr,
    rfl, rfl, rfl, rfl⟩
  · exact fun hne => WF_addSeg q (.s1 b) hq hne
  · exact fun hne => WF_addSeg q (.s2 b c) hq hne
  · exact fun hne => WF_addSeg q (.s3 b c d) hq hne

/-- Witness for C2 on the concrete well-formed buffers
`q = [0,1,2,0]` and `r = [0,3,4,0, 1,5,6,1]`. -/
theorem builder_preserves_WF_witness :
    WF (Path.Start [0, 1, 2, 0] ⟨9, 9⟩) ∧
    (([0, 1, 2, 0] : Path) ≠ [] → WF (Path.Add1 [0, 1, 2, 0] ⟨5, 5⟩)) ∧
    (([0, 1, 2, 0] : Path) ≠ [] → WF (Path.Add2 [0, 1, 2, 0] ⟨5, 5⟩ ⟨6, 6⟩)) ∧
    (([0, 1, 2, 0] : Path) ≠ [] → WF (Path.Add3 [0, 1, 2, 0] ⟨5, 5⟩ ⟨6, 6⟩ ⟨7, 7⟩)) ∧
    WF (Path.Clear [0, 1, 2, 0]) ∧
    WF (Path.AddPath [0, 1, 2, 0] [0, 3, 4, 0, 1, 5, 6, 1]) ∧
    (Path.Start [] (⟨9, 9⟩ : Point)).length = 4 ∧
    (Path.Add1 [] (⟨5, 5⟩ : Point)).length = 4 ∧
    (Path.Add2 [] (⟨5, 5⟩ : Point) ⟨6, 6⟩).length = 6 ∧
    (Path.Add3 [] (⟨5, 5⟩ : Point) ⟨6, 6⟩ ⟨7, 7⟩).length = 8 :=
  builder_preserves_WF [0, 1, 2, 0] [0, 3, 4, 0, 1, 5, 6, 1] ⟨9, 9⟩ ⟨5, 5⟩ ⟨6, 6⟩ ⟨7, 7⟩
    ⟨[(⟨1, 2⟩, [])], rfl⟩ ⟨[(⟨3, 4⟩, [.s1 ⟨5, 6⟩])], rfl⟩

/-! ## The backward walk on encoded contours -/

/-- The backward walk only reads indices `≤ i`, so extending the buffer on
the right beyond `i` does not change it. -/
theorem revWalkAux_prefix (f : Nat) (r l : List Int) :
    ∀ i : Int, i < (r.length : Int) → revWalkAux (r ++ l) f i = revWalkAux r f i := by
  induction f with
  | zero => intro i _; rfl
  | succ g ih =>
    intro i hi
    simp only [revWalkAux]
    rw [getF_append_left r l i hi]
    cases hgi : getF r i with
    | none => rfl
    | some t =>
      dsimp only
      by_cases h0 : t = 0
      · rw [if_pos h0, if_pos h0]
      rw [if_neg h0, if_neg h0]
      by_cases h1 : t = 1
      · rw [if_pos h1, if_pos h1, getF_append_left r l (i - 6) (by omega),
          getF_append_left r l (i - 5) (by omega)]
        cases getF r (i - 6) <;> cases getF r (i - 5) <;>
          first
            | rfl
            | (dsimp only; rw [ih (i - 4) (by omega)])
      rw [if_neg h1, if_neg h1]
      by_cases h2 : t = 2
      · rw [if_pos h2, if_pos h2, getF_append_left r l (i - 4) (by omega),
          getF_append_left r l (i - 3) (by omega),
          getF_append_left r l (i - 8) (by omega),
          getF_append_left r l (i - 7) (by omega)]
        cases getF r (i - 4) <;> cases getF r (i - 3) <;>
          cases getF r (i - 8) <;> cases getF r (i - 7) <;>
          first
            | rfl
            | (dsimp only; rw [ih (i - 6) (by omega)])
      rw [if_neg h2, if_neg h2]
      by_cases h3 : t = 3
      · rw [if_pos h3, if_pos h3, getF_append_left r l (i - 4) (by omega),
          getF_append_left r l (i - 3) (by omega),
          getF_append_left r l (i - 6) (by omega),
          getF_append_left r l (i - 5) (by omega),
          getF_append_left r l (i - 10) (by omega),
          getF_append_left r l (i - 9) (by omega)]
        cases getF r (i - 4) <;> cases getF r (i - 3) <;>
          cases getF r (i - 6) <;> cases getF r (i - 5) <;>
          cases getF r (i - 10) <;> cases getF r (i - 9) <;>
          first
            | rfl
            | (dsimp only; rw [ih (i - 8) (by omega)])
      rw [if_neg h3, if_neg h3]

/-- One step of the backward walk: with a buffer ending in the encoding of
segment `s`, whose preceding record ends at point `e`, the walk emits
`revEvent e s` and continues at the preceding record's trailing tag. -/
theorem revWalkAux_step (r : List Int) (e : Point) (es : List Event) (s : Seg)
    (hx : getF r ((r.length : Int) - 3) = some e.X)
    (hy : getF r ((r.length : Int) - 2) = some e.Y)
    (g : Nat) (hg : revWalkAux r g ((r.length : Int) - 1) = some es) :
    revWalkAux (r ++ segEnc s) (g + 1) (((r ++ segEnc s).length : Int) - 1) =
      some (revEvent e s :: es) := by
  cases s with
  | s1 b =>
    have hL : (segEnc (Seg.s1 b)).length = 4 := rfl
    have hlen : (((r ++ segEnc (Seg.s1 b)).length : Int) - 1) = (r.length : Int) + 3 := by
      rw [List.length_append, hL]; omega
    rw [hlen]
    simp only [revWalkAux]
    have htag : getF (r ++ segEnc (Seg.s1 b)) ((r.length : Int) + 3) = some 1 := by
      rw [getF_append_right r _ 3 (by omega)]; rfl
    rw [htag]
    dsimp only
    rw [if_neg (by decide : ¬(1 : Int) = 0), if_pos (rfl : (1 : Int) = 1),
      show (r.length : Int) + 3 - 6 = (r.length : Int) - 3 from by omega,
      show (r.length : Int) + 3 - 5 = (r.length : Int) - 2 from by omega,
      getF_append_left r _ _ (by omega), getF_append_left r _ _ (by omega), hx, hy]
    dsimp only
    rw [show (r.length : Int) + 3 - 4 = (r.length : Int) - 1 from by omega,
      revWalkAux_prefix g r _ _ (by omega), hg]
    rfl
  | s2 b c =>
    have hL : (segEnc (Seg.s2 b c)).length = 6 := rfl
    have hlen : (((r ++ segEnc (Seg.s2 b c)).length : Int) - 1) = (r.length : Int) + 5 := by
      rw [List.length_append, hL]; omega
    rw [hlen]
    simp only [revWalkAux]
    have htag : getF (r ++ segEnc (Seg.s2 b c)) ((r.length : Int) + 5) = some 2 := by
      rw [getF_append_right r _ 5 (by omega)]; rfl
    rw [htag]
    dsimp only
    have hb1 : getF (r ++ segEnc (Seg.s2 b c)) ((r.length : Int) + 5 - 4) = some b.X := by
      rw [show (r.length : Int) + 5 - 4 = (r.length : Int) + 1 from by omega,
        getF_append_right r _ 1 (by omega)]; rfl
    have hb2 : getF (r ++ segEnc (Seg.s2 b c)) ((r.length : Int) + 5 - 3) = some b.Y := by
      rw [show (r.length : Int) + 5 - 3 = (r.length : Int) + 2 from by omega,
        getF_append_right r _ 2 (by omega)]; rfl
    rw [if_neg (by decide : ¬(2 : Int) = 0), if_neg (by decide : ¬(2 : Int) = 1),
      if_pos (rfl : (2 : Int) = 2), hb1, hb2,
      show (r.length : Int) + 5 - 8 = (r.length : Int) - 3 from by omega,
      show (r.length : Int) + 5 - 7 = (r.length : Int) - 2 from by omega,
      getF_append_left r _ _ (by omega), getF_append_left r _ _ (by omega), hx, hy]
    dsimp only
    rw [show (r.length : Int) + 5 - 6 = (r.length : Int) - 1 from by omega,
      revWalkAux_prefix g r _ _ (by omega), hg]
    rfl
  | s3 b c d =>
    have hL : (segEnc (Seg.s3 b c d)).length = 8 := rfl
    have hlen : (((r ++ segEnc (Seg.s3 b c d)).length : Int) - 1) = (r.length : Int) + 7 := by
      rw [List.length_append, hL]; omega
    rw [hlen]
    simp only [revWalkAux]
    have htag : getF (r ++ segEnc (Seg.s3 b c d)) ((r.length : Int) + 7) = some 3 := by
      rw [getF_append_right r _ 7 (by omega)]; rfl
    rw [htag]
    dsimp only
    have hc1 : getF (r ++ segEnc (Seg.s3 b c d)) ((r.length : Int) + 7 - 4) = some c.X := by
      rw [show (r.length : Int) + 7 - 4 = (r.length : Int) + 3 from by omega,
        getF_append_right r _ 3 (by omega)]; rfl
    have hc2 : getF (r ++ segEnc (Seg.s3 b c d)) ((r.length : Int) + 7 - 3) = some c.Y := by
      rw [show (r.length : Int) + 7 - 3 = (r.length : Int) + 4 from by omega,
        getF_append_right r _ 4 (by omega)]; rfl
    have hb1 : getF (r ++ segEnc (Seg.s3 b c d)) ((r.length : Int) + 7 - 6) = some b.X := by
      rw [show (r.length : Int) + 7 - 6 = (r.length : Int) + 1 from by omega,
        getF_append_right r _ 1 (by omega)]; rfl
    have hb2 : getF (r ++ segEnc (Seg.s3 b c d)) ((r.length : Int) + 7 - 5) = some b.Y := by
      rw [show (r.length : Int) + 7 - 5 = (r.length : Int) + 2 from by omega,
        getF_append_right r _ 2 (by omega)]; rfl
    rw [if_neg (by decide : ¬(3 : Int) = 0), if_neg (by decide : ¬(3 : Int) = 1),
      if_neg (by decide : ¬(3 : Int) = 2), if_pos (rfl : (3 : Int) = 3),
      hc1, hc2, hb1, hb2,
      show (r.length : Int) + 7 - 10 = (r.length : Int) - 3 from by omega,
      show (r.length : Int) + 7 - 9 = (r.length : Int) - 2 from by omega,
      getF_append_left r _ _ (by omega), getF_append_left r _ _ (by omega), hx, hy]
    dsimp only
    rw [show (r.length : Int) + 7 - 8 = (r.length : Int) - 1 from by omega,
      revWalkAux_prefix g r _ _ (by omega), hg]
    rfl

/-- The backward walk over a buffer `r ++ segsEnc ss`, where the prefix `r`
ends in a record whose endpoint is `e` and where walking `r` from its last
index yields `es`: the walk emits the reversal of `ss` and then continues
exactly as on `r`. -/
theorem revWalk_segs (ss : List Seg) :
    ∀ (r : List Int) (e : Point) (es : List Event) (f0 : Nat),
      getF r ((r.length : Int) - 3) = some e.X →
      getF r ((r.length : Int) - 2) = some e.Y →
      (∀ f, f0 ≤ f → revWalkAux r f ((r.length : Int) - 1) = some es) →
      ∀ f, ss.length + f0 ≤ f →
        revWalkAux (r ++ segsEnc ss) f (((r ++ segsEnc ss).length : Int) - 1) =
          some (revEvents e ss ++ es) := by
  induction ss with
  | nil =>
    intro r e es f0 hx hy hcont f hf
    simp only [segsEnc, List.map_nil, List.flatten_nil, List.append_nil, revEvents,
      List.nil_append]
    exact hcont f (by simpa using hf)
  | cons s rest ih =>
    intro r e es f0 hx hy hcont f hf
    have hx' : getF (r ++ segEnc s) (((r ++ segEnc s).length : Int) - 3) =
        some (segEnd s).X := by
      cases s with
      | s1 b =>
        rw [show (((r ++ segEnc (Seg.s1 b)).length : Int) - 3) = (r.length : Int) + 1 from by
            simp only [List.length_append, segEnc, List.length_cons, List.length_nil]; omega,
          getF_append_right r _ 1 (by omega)]
        rfl
      | s2 b c =>
        rw [show (((r ++ segEnc (Seg.s2 b c)).length : Int) - 3) = (r.length : Int) + 3 from by
            simp only [List.length_append, segEnc, List.length_cons, List.length_nil]; omega,
          getF_append_right r _ 3 (by omega)]
        rfl
      | s3 b c d =>
        rw [show (((r ++ segEnc (Seg.s3 b c d)).length : Int) - 3) = (r.length : Int) + 5 from by
            simp only [List.length_append, segEnc, List.length_cons, List.length_nil]; omega,
          getF_append_right r _ 5 (by omega)]
        rfl
    have hy' : getF (r ++ segEnc s) (((r ++ segEnc s).length : Int) - 2) =
        some (segEnd s).Y := by
      cases s with
      | s1 b =>
        rw [show (((r ++ segEnc (Seg.s1 b)).length : Int) - 2) = (r.length : Int) + 2 from by
            simp only [List.length_append, segEnc, List.length_cons, List.length_nil]; omega,
          getF_append_right r _ 2 (by omega)]
        rfl
      | s2 b c =>
        rw [show (((r ++ segEnc (Seg.s2 b c)).length : Int) - 2) = (r.length : Int) + 4 from by
            simp only [List.length_append, segEnc, List.length_cons, List.length_nil]; omega,
          getF_append_right r _ 4 (by omega)]
        rfl
      | s3 b c d =>
        rw [show (((r ++ segEnc (Seg.s3 b c d)).length : Int) - 2) = (r.length : Int) + 6 from by
            simp only [List.length_append, segEnc, List.length_cons, List.length_nil]; omega,
          getF_append_right r _ 6 (by omega)]
        rfl
    have hcont' : ∀ f', f0 + 1 ≤ f' →
        revWalkAux (r ++ segEnc s) f' (((r ++ segEnc s).length : Int) - 1) =
          some (revEvent e s :: es) := by
      intro f' hf'
      cases f' with
      | zero => omega
      | succ g => exact revWalkAux_step r e es s hx hy g (hcont g (by omega))
    have hmain := ih (r ++ segEnc s) (segEnd s) (revEvent e s :: es) (f0 + 1)
      hx' hy' hcont' f (by simp only [List.length_cons] at hf; omega)
    rw [List.append_assoc] at hmain
    rw [segsEnc_cons]
    rw [hmain]
    congr 1
    simp [revEvents, List.append_assoc]

theorem getF_append_idx (r l : List Int) (i j : Int)
    (hij : i = (r.length : Int) + j) (hj : 0 ≤ j) :
    getF (r ++ l) i = getF l j := by
  subst hij; exact getF_append_right r l j hj

theorem recsEnc_cons (rc : Rec) (rs : List Rec) :
    recsEnc (rc :: rs) = recEnc rc ++ recsEnc rs := by
  simp [recsEnc]

theorem recEnc_length_pos (rc : Rec) : 4 ≤ (recEnc rc).length := by
  cases rc with
  | rStart a => simp [recEnc, startRec]
  | rSeg s => cases s <;> simp [recEnc, segEnc]

theorem recsEnc_length (rs : List Rec) : rs.length ≤ (recsEnc rs).length := by
  induction rs with
  | nil => simp [recsEnc]
  | cons rc rs ih =>
    rw [recsEnc_cons, List.length_append]
    have := recEnc_length_pos rc
    simpa using by omega

theorem pathEnc_eq_recsEnc (cs : List (Point × List Seg)) :
    pathEnc cs = recsEnc (toRecs cs) := by
  induction cs with
  | nil => rfl
  | cons c cs ih =>
    obtain ⟨a, ss⟩ := c
    have hcomp : recEnc ∘ Rec.rSeg = segEnc := by funext s; rfl
    have hc : contourEnc a ss = recsEnc (Rec.rStart a :: ss.map Rec.rSeg) := by
      simp [contourEnc, recsEnc, recEnc, segsEnc, startRec, hcomp]
    calc pathEnc ((a, ss) :: cs)
        = contourEnc a ss ++ pathEnc cs := by simp [pathEnc]
      _ = recsEnc (Rec.rStart a :: ss.map Rec.rSeg) ++ recsEnc (toRecs cs) := by
          rw [hc, ih]
      _ = recsEnc (toRecs ((a, ss) :: cs)) := by simp [recsEnc, toRecs]

/-- Walking backward from the trailing tag of a start record stops at once,
emitting nothing. -/
theorem revWalkAux_startRec (p0 : List Int) (a : Point) :
    ∀ f, 1 ≤ f →
      revWalkAux (p0 ++ startRec a) f (((p0 ++ startRec a).length : Int) - 1) = some [] := by
  intro f hf
  cases f with
  | zero => omega
  | succ g =>
    simp only [revWalkAux]
    have htag : getF (p0 ++ startRec a) (((p0 ++ startRec a).length : Int) - 1) = some 0 := by
      rw [getF_append_idx p0 (startRec a) _ 3 (by
          simp only [List.length_append, startRec, List.length_cons, List.length_nil]
          omega) (by omega)]
      rfl
    rw [htag]
    dsimp only
    rw [if_pos rfl]

/-- The forward decode of `Path.String` over a buffer `r ++ recsEnc rs`,
starting at the first index after the prefix `r`: it emits one token per
record and stops at the end of the buffer. -/
theorem stringAux_recs (rs : List Rec) :
    ∀ (r : List Int) (f : Nat), rs.length + 1 ≤ f →
      stringAux (r ++ recsEnc rs) f (r.length : Int) = some (rs.map recTok) := by
  induction rs with
  | nil =>
    intro r f hf
    cases f with
    | zero => omega
    | succ g =>
      simp only [recsEnc, List.map_nil, List.flatten_nil, List.append_nil, stringAux]
      rw [if_neg (by omega : ¬ ((r.length : Int) < ((r.length : Nat) : Int)))]
  | cons rc rest ih =>
    intro r f hf
    cases f with
    | zero => omega
    | succ g =>
      rw [recsEnc_cons, ← List.append_assoc]
      cases rc with
      | rStart a =>
        simp only [stringAux]
        rw [if_pos (by
          simp only [List.length_append, recEnc, startRec, segEnc,
            List.length_cons, List.length_nil]
          omega : (r.length : Int) < (((r ++ recEnc (Rec.rStart a)) ++ recsEnc rest).length : Int))]
        have htag : getF ((r ++ recEnc (Rec.rStart a)) ++ recsEnc rest) (r.length : Int) = some 0 := by
          rw [getF_append_left _ _ _ (by
              simp only [List.length_append, recEnc, startRec, segEnc,
                List.length_cons, List.length_nil]
              omega),
            getF_append_idx r _ _ 0 (by omega) (by omega)]
          rfl
        have hr1 : getF ((r ++ recEnc (Rec.rStart a)) ++ recsEnc rest) ((r.length : Int) + 1) = some a.X := by
          rw [getF_append_left _ _ _ (by
              simp only [List.length_append, recEnc, startRec, segEnc,
                List.length_cons, List.length_nil]
              omega),
            getF_append_idx r _ _ 1 (by omega) (by omega)]
          rfl
        have hr2 : getF ((r ++ recEnc (Rec.rStart a)) ++ recsEnc rest) ((r.length : Int) + 2) = some a.Y := by
          rw [getF_append_left _ _ _ (by
              simp only [List.length_append, recEnc, startRec, segEnc,
                List.length_cons, List.length_nil]
              omega),
            getF_append_idx r _ _ 2 (by omega) (by omega)]
          rfl
        rw [htag]
        dsimp only
        rw [if_pos (by decide : (0 : Int) = 0)]
        rw [hr1, hr2]
        dsimp only
        rw [show (r.length : Int) + 4 = (((r ++ recEnc (Rec.rStart a)).length : Nat) : Int) from by
            simp only [List.length_append, recEnc, startRec, segEnc,
              List.length_cons, List.length_nil]
            omega,
          ih (r ++ recEnc (Rec.rStart a)) g (by simp only [List.length_cons] at hf; omega)]
        rfl
      | rSeg s =>
        cases s with
        | s1 b =>
          simp only [stringAux]
          rw [if_pos (by
            simp only [List.length_append, recEnc, startRec, segEnc,
              List.length_cons, List.length_nil]
            omega : (r.length : Int) < (((r ++ recEnc (Rec.rSeg (Seg.s1 b))) ++ recsEnc rest).length : Int))]
          have htag : getF ((r ++ recEnc (Rec.rSeg (Seg.s1 b))) ++ recsEnc rest) (r.length : Int) = some 1 := by
            rw [getF_append_left _ _ _ (by
                simp only [List.length_append, recEnc, startRec, segEnc,
                  List.length_cons, List.length_nil]
                omega),
              getF_append_idx r _ _ 0 (by omega) (by omega)]
            rfl
          have hr1 : getF ((r ++ recEnc (Rec.rSeg (Seg.s1 b))) ++ recsEnc rest) ((r.length : Int) + 1) = some b.X := by
            rw [getF_append_left _ _ _ (by
                simp only [List.length_append, recEnc, startRec, segEnc,
                  List.length_cons, List.length_nil]
                omega),
              getF_append_idx r _ _ 1 (by omega) (by omega)]
            rfl
          have hr2 : getF ((r ++ recEnc (Rec.rSeg (Seg.s1 b))) ++ recsEnc rest) ((r.length : Int) + 2) = some b.Y := by
            rw [getF_append_left _ _ _ (by
                simp only [List.length_append, recEnc, startRec, segEnc,
                  List.length_cons, List.length_nil]
                omega),
              getF_append_idx r _ _ 2 (by omega) (by omega)]
            rfl
          rw [htag]
          dsimp only
          rw [if_neg (by decide : ¬(1 : Int) = 0), if_pos (by decide : (1 : Int) = 1)]
          rw [hr1, hr2]
          dsimp only
          rw [show (r.length : Int) + 4 = (((r ++ recEnc (Rec.rSeg (Seg.s1 b))).length : Nat) : Int) from by
              simp only [List.length_append, recEnc, startRec, segEnc,
                List.length_cons, List.length_nil]
              omega,
            ih (r ++ recEnc (Rec.rSeg (Seg.s1 b))) g (by simp only [List.length_cons] at hf; omega)]
          rfl
        | s2 b c =>
          simp only [stringAux]
          rw [if_pos (by
            simp only [List.length_append, recEnc, startRec, segEnc,
              List.length_cons, List.length_nil]
            omega : (r.length : Int) < (((r ++ recEnc (Rec.rSeg (Seg.s2 b c))) ++ recsEnc rest).length : Int))]
          have htag : getF ((r ++ recEnc (Rec.rSeg (Seg.s2 b c))) ++ recsEnc rest) (r.length : Int) = some 2 := by
            rw [getF_append_left _ _ _ (by
                simp only [List.length_append, recEnc, startRec, segEnc,
                  List.length_cons, List.length_nil]
                omega),
              getF_append_idx r _ _ 0 (by omega) (by omega)]
            rfl
          have hr1 : getF ((r ++ recEnc (Rec.rSeg (Seg.s2 b c))) ++ recsEnc rest) ((r.length : Int) + 1) = some b.X := by
            rw [getF_append_left _ _ _ (by
                simp only [List.length_append, recEnc, startRec, segEnc,
                  List.length_cons, List.length_nil]
                omega),
              getF_append_idx r _ _ 1 (by omega) (by omega)]
            rfl
          have hr2 : getF ((r ++ recEnc (Rec.rSeg (Seg.s2 b c))) ++ recsEnc rest) ((r.length : Int) + 2) = some b.Y := by
            rw [getF_append_left _ _ _ (by
                simp only [List.length_append, recEnc, startRec, segEnc,
                  List.length_cons, List.length_nil]
                omega),
              getF_append_idx r _ _ 2 (by omega) (by omega)]
            rfl
          have hr3 : getF ((r ++ recEnc (Rec.rSeg (Seg.s2 b c))) ++ recsEnc rest) ((r.length : Int) + 3) = some c.X := by
            rw [getF_append_left _ _ _ (by
                simp only [List.length_append, recEnc, startRec, segEnc,
                  List.length_cons, List.length_nil]
                omega),
              getF_append_idx r _ _ 3 (by omega) (by omega)]
            rfl
          have hr4 : getF ((r ++ recEnc (Rec.rSeg (Seg.s2 b c))) ++ recsEnc rest) ((r.length : Int) + 4) = some c.Y := by
            rw [getF_append_left _ _ _ (by
                simp only [List.length_append, recEnc, startRec, segEnc,
                  List.length_cons, List.length_nil]
                omega),
              getF_append_idx r _ _ 4 (by omega) (by omega)]
            rfl
          rw [htag]
          dsimp only
          rw [if_neg (by decide : ¬(2 : Int) = 0), if_neg (by decide : ¬(2 : Int) = 1), if_pos (by decide : (2 : Int) = 2)]
          rw [hr1, hr2, hr3, hr4]
          dsimp only
          rw [show (r.length : Int) + 6 = (((r ++ recEnc (Rec.rSeg (Seg.s2 b c))).length : Nat) : Int) from by
              simp only [List.length_append, recEnc, startRec, segEnc,
                List.length_cons, List.length_nil]
              omega,
            ih (r ++ recEnc (Rec.rSeg (Seg.s2 b c))) g (by simp only [List.length_cons] at hf; omega)]
          rfl
        | s3 b c d =>
          simp only [stringAux]
          rw [if_pos (by
            simp only [List.length_append, recEnc, startRec, segEnc,
              List.length_cons, List.length_nil]
            omega : (r.length : Int) < (((r ++ recEnc (Rec.rSeg (Seg.s3 b c d))) ++ recsEnc rest).length : Int))]
          have htag : getF ((r ++ recEnc (Rec.rSeg (Seg.s3 b c d))) ++ recsEnc rest) (r.length : Int) = some 3 := by
            rw [getF_append_left _ _ _ (by
                simp only [List.length_append, recEnc, startRec, segEnc,
                  List.length_cons, List.length_nil]
                omega),
              getF_append_idx r _ _ 0 (by omega) (by omega)]
            rfl
          have hr1 : getF ((r ++ recEnc (Rec.rSeg (Seg.s3 b c d))) ++ recsEnc rest) ((r.length : Int) + 1) = some b.X := by
            rw [getF_append_left _ _ _ (by
                simp only [List.length_append, recEnc, startRec, segEnc,
                  List.length_cons, List.length_nil]
                omega),
              getF_append_idx r _ _ 1 (by omega) (by omega)]
            rfl
          have hr2 : getF ((r ++ recEnc (Rec.rSeg (Seg.s3 b c d))) ++ recsEnc rest) ((r.length : Int) + 2) = some b.Y := by
            rw [getF_append_left _ _ _ (by
                simp only [List.length_append, recEnc, startRec, segEnc,
                  List.length_cons, List.length_nil]
                omega),
              getF_append_idx r _ _ 2 (by omega) (by omega)]
            rfl
          have hr3 : getF ((r ++ recEnc (Rec.rSeg (Seg.s3 b c d))) ++ recsEnc rest) ((r.length : Int) + 3) = some c.X := by
            rw [getF_append_left _ _ _ (by
                simp only [List.length_append, recEnc, startRec, segEnc,
                  List.length_cons, List.length_nil]
                omega),
              getF_append_idx r _ _ 3 (by omega) (by omega)]
            rfl
          have hr4 : getF ((r ++ recEnc (Rec.rSeg (Seg.s3 b c d))) ++ recsEnc rest) ((r.length : Int) + 4) = some c.Y := by
            rw [getF_append_left _ _ _ (by
                simp only [List.length_append, recEnc, startRec, segEnc,
                  List.length_cons, List.length_nil]
                omega),
              getF_append_idx r _ _ 4 (by omega) (by omega)]
            rfl
          have hr5 : getF ((r ++ recEnc (Rec.rSeg (Seg.s3 b c d))) ++ recsEnc rest) ((r.length : Int) + 5) = some d.X := by
            rw [getF_append_left _ _ _ (by
                simp only [List.length_append, recEnc, startRec, segEnc,
                  List.length_cons, List.length_nil]
                omega),
              getF_append_idx r _ _ 5 (by omega) (by omega)]
            rfl
          have hr6 : getF ((r ++ recEnc (Rec.rSeg (Seg.s3 b c d))) ++ recsEnc rest) ((r.length : Int) + 6) = some d.Y := by
            rw [getF_append_left _ _ _ (by
                simp only [List.length_append, recEnc, startRec, segEnc,
                  List.length_cons, List.length_nil]
                omega),
              getF_append_idx r _ _ 6 (by omega) (by omega)]
            rfl
          rw [htag]
          dsimp only
          rw [if_neg (by decide : ¬(3 : Int) = 0), if_neg (by decide : ¬(3 : Int) = 1), if_neg (by decide : ¬(3 : Int) = 2), if_pos (by decide : (3 : Int) = 3)]
          rw [hr1, hr2, hr3, hr4, hr5, hr6]
          dsimp only
          rw [show (r.length : Int) + 8 = (((r ++ recEnc (Rec.rSeg (Seg.s3 b c d))).length : Nat) : Int) from by
              simp only [List.length_append, recEnc, startRec, segEnc,
                List.length_cons, List.length_nil]
              omega,
            ih (r ++ recEnc (Rec.rSeg (Seg.s3 b c d))) g (by simp only [List.length_cons] at hf; omega)]
          rfl

/-! ## C1, C3, C10: direct computations on the builder encoding -/

/-- C1: replaying the single contour `Start(A); Add1(B); Add2(C,D)` in
reverse onto a builder already started at `D` emits exactly `Add2(C, B)`
then `Add1(A)` and no `Start`; the walk stops at the contour's tag-0
record. -/
theorem addPathReversed_single_contour (A B C D : Point) :
    addPathReversed [Event.start D] (Path.Add2 (Path.Add1 (Path.Start [] A) B) C D) =
    some [Event.start D, Event.add2 C B, Event.add1 A] := rfl

/-- C3: building `Start(A); Add1(B); Add2(C,D); Add3(E,F,G)` on an empty
Path and decoding it via `Path.String` yields exactly the tokens
`S0(A) A1(B) A2(C,D) A3(E,F,G)`, every coordinate reproduced exactly. -/
theorem decode_roundtrip (A B C D E F G : Point) :
    Path.decode (Path.Add3 (Path.Add2 (Path.Add1 (Path.Start [] A) B) C D) E F G) =
    some [Token.S0 A, Token.A1 B, Token.A2 C D, Token.A3 E F G] := rfl

/-- C10: `Add1`/`Add2`/`Add3` on an empty Path do not fail: each
unconditionally appends its full record, leaving a buffer whose first
record's tag is 1, 2 or 3 — not 0.  No builder operation checks the
`Start`-first precondition. -/
theorem addN_unchecked_on_empty (b c d : Point) :
    Path.Add1 [] b = [1, b.X, b.Y, 1] ∧
    Path.Add2 [] b c = [2, b.X, b.Y, c.X, c.Y, 2] ∧
    Path.Add3 [] b c d = [3, b.X, b.Y, c.X, c.Y, d.X, d.Y, 3] ∧
    (Path.Add1 [] b).head? = some 1 ∧
    (Path.Add2 [] b c).head? = some 2 ∧
    (Path.Add3 [] b c d).head? = some 3 ∧
    (1 : Int) ≠ 0 ∧ (2 : Int) ≠ 0 ∧ (3 : Int) ≠ 0 :=
  ⟨rfl, rfl, rfl, rfl, rfl, rfl, by decide, by decide, by decide⟩

/-! ## C9: safety and termination of addPathReversed; C4: failure policy -/

/-- C9: for a single well-formed non-empty contour `contourEnc a ss`,
`addPathReversed` succeeds: every read is in bounds, the walk strictly
descends through trailing tags and reaches the contour's tag-0 record (the
bad-path panic is unreachable), emitting exactly the reversed events; for an
empty buffer it reads nothing and emits nothing. -/
theorem addPathReversed_safe (a : Point) (ss : List Seg) (tr : List Event) :
    addPathReversed tr (contourEnc a ss) = some (tr ++ revEvents a ss) ∧
    addPathReversed tr [] = some tr := by
  refine ⟨?_, rfl⟩
  unfold addPathReversed
  simp only [contourEnc]
  rw [if_neg (by
    simp only [List.length_append, startRec, List.length_cons, List.length_nil]
    omega : ¬ ((startRec a ++ segsEnc ss).length = 0))]
  have hx : getF (startRec a) (((startRec a).length : Int) - 3) = some a.X := rfl
  have hy : getF (startRec a) (((startRec a).length : Int) - 2) = some a.Y := rfl
  have hcont : ∀ f, 1 ≤ f →
      revWalkAux (startRec a) f (((startRec a).length : Int) - 1) = some [] := by
    intro f hf
    have h := revWalkAux_startRec [] a f hf
    simpa using h
  have hmain := revWalk_segs ss (startRec a) a [] 1 hx hy hcont
    ((startRec a ++ segsEnc ss).length + 1) (by
      have h1 := segsEnc_length ss
      simp only [List.length_append, startRec, List.length_cons, List.length_nil]
      omega)
  rw [hmain]
  simp

/-- C4: on any buffer whose next tag (read forward by `Path.String`, or
backward by `addPathReversed`) lies outside {0,1,2,3}, the operation aborts
with `none` rather than returning a result; and on every well-formed buffer
both operations succeed, so the failure branch is never taken. -/
theorem bad_tag_fails_wf_succeeds :
    (∀ (q : Path) (f : Nat) (i t : Int), getF q i = some t →
      i < (q.length : Int) → t ≠ 0 → t ≠ 1 → t ≠ 2 → t ≠ 3 →
      stringAux q (f + 1) i = none) ∧
    (∀ (q : Path) (f : Nat) (i t : Int), getF q i = some t →
      t ≠ 0 → t ≠ 1 → t ≠ 2 → t ≠ 3 →
      revWalkAux q (f + 1) i = none) ∧
    (∀ q : Path, WF q → ∃ ts, Path.decode q = some ts) ∧
    (∀ q : Path, WF q → ∃ es, addPathReversed [] q = some es) := by
  refine ⟨?_, ?_, ?_, ?_⟩
  · intro q f i t hget hi h0 h1 h2 h3
    simp only [stringAux]
    rw [if_pos hi, hget]
    dsimp only
    rw [if_neg h0, if_neg h1, if_neg h2, if_neg h3]
  · intro q f i t hget h0 h1 h2 h3
    simp only [revWalkAux]
    rw [hget]
    dsimp only
    rw [if_neg h0, if_neg h1, if_neg h2, if_neg h3]
  · intro q hq
    obtain ⟨cs, rfl⟩ := hq
    refine ⟨(toRecs cs).map recTok, ?_⟩
    unfold Path.decode
    rw [pathEnc_eq_recsEnc]
    have h := stringAux_recs (toRecs cs) [] ((recsEnc (toRecs cs)).length + 1) (by
      have := recsEnc_length (toRecs cs)
      omega)
    simpa using h
  · intro q hq
    obtain ⟨cs, rfl⟩ := hq
    rcases List.eq_nil_or_concat cs with rfl | ⟨L, c, rfl⟩
    · exact ⟨[], rfl⟩
    · obtain ⟨a, ss⟩ := c
      refine ⟨revEvents a ss, ?_⟩
      have hdec : pathEnc (L.concat (a, ss)) = (pathEnc L ++ startRec a) ++ segsEnc ss := by
        rw [List.concat_eq_append, pathEnc_append]
        simp [pathEnc, contourEnc, List.append_assoc]
      rw [hdec]
      unfold addPathReversed
      rw [if_neg (by
        simp only [List.length_append, startRec, List.length_cons, List.length_nil]
        omega : ¬ (((pathEnc L ++ startRec a) ++ segsEnc ss).length = 0))]
      have hx : getF (pathEnc L ++ startRec a)
          (((pathEnc L ++ startRec a).length : Int) - 3) = some a.X := by
        rw [getF_append_idx (pathEnc L) (startRec a) _ 1 (by
            simp only [List.length_append, startRec, List.length_cons, List.length_nil]
            omega) (by omega)]
        rfl
      have hy : getF (pathEnc L ++ startRec a)
          (((pathEnc L ++ startRec a).length : Int) - 2) = some a.Y := by
        rw [getF_append_idx (pathEnc L) (startRec a) _ 2 (by
            simp only [List.length_append, startRec, List.length_cons, List.length_nil]
            omega) (by omega)]
        rfl
      have hcont := revWalkAux_startRec (pathEnc L) a
      have hmain := revWalk_segs ss (pathEnc L ++ startRec a) a [] 1 hx hy hcont
        ((((pathEnc L ++ startRec a) ++ segsEnc ss).length) + 1) (by
          have h1 := segsEnc_length ss
          simp only [List.length_append, startRec, List.length_cons, List.length_nil]
          omega)
      rw [hmain]
      simp

/-- Witness for C4: a lone bad tag 7 (resp. 9) aborts the decode (resp. the
backward walk); the well-formed one-contour buffer `[0,5,6,0]` decodes and
reverse-walks successfully. -/
theorem bad_tag_fails_wf_succeeds_witness :
    stringAux [7] 1 0 = none ∧ revWalkAux [9] 1 0 = none ∧
    (∃ ts, Path.decode [0, 5, 6, 0] = some ts) ∧
    (∃ es, addPathReversed [] [0, 5, 6, 0] = some es) := by
  obtain ⟨h1, h2, h3, h4⟩ := bad_tag_fails_wf_succeeds
  exact ⟨h1 [7] 0 0 7 (by decide) (by decide) (by decide) (by decide) (by decide) (by decide),
    h2 [9] 0 0 9 (by decide) (by decide) (by decide) (by decide) (by decide),
    h3 [0, 5, 6, 0] ⟨[(⟨5, 6⟩, [])], rfl⟩,
    h4 [0, 5, 6, 0] ⟨[(⟨5, 6⟩, [])], rfl⟩⟩

/-! ## C8: exactness of the 90°/180°-class rotations -/

/-- C8: for every `int32` point, `p.Neg().Neg() == p` and
`p.Rot90CW().Rot90CW() == p.Neg()`: the 90°/180°-class rotations are
integer swaps and negations and compose without rounding. -/
theorem neg_neg_rot90_rot90 (x y : Int) (hx : InRange32 x) (hy : InRange32 y) :
    (Point.mk x y).Neg.Neg = Point.mk x y ∧
    (Point.mk x y).Rot90CW.Rot90CW = (Point.mk x y).Neg := by
  unfold InRange32 at hx hy
  refine ⟨?_, rfl⟩
  have h1 : wrap32 (-wrap32 (-x)) = x := by unfold wrap32; omega
  have h2 : wrap32 (-wrap32 (-y)) = y := by unfold wrap32; omega
  dsimp only [Point.Neg]
  rw [h1, h2]

/-- Witness for C8 at the concrete point `(5, -7)`. -/
theorem neg_neg_rot90_rot90_witness :
    (Point.mk 5 (-7)).Neg.Neg = Point.mk 5 (-7) ∧
    (Point.mk 5 (-7)).Rot90CW.Rot90CW = (Point.mk 5 (-7)).Neg :=
  neg_neg_rot90_rot90 5 (-7) (by decide) (by decide)

/-! ## C6: MaxAbs (corrected) -/

/-- C6 counterexample: at the tie `a = 5`, `b = -5` the claim says `MaxAbs`
returns the second argument `b = -5`; the code returns `5`. -/
theorem MaxAbs_tie_cex : MaxAbs 5 (-5) = 5 ∧ (5 : Int) ≠ -5 := by decide

/-- C6 amended: `MaxAbs(a, b)` returns the *magnitude* `max |a| |b|`
(as a value — on a tie this is `|b|`, not the argument `b` itself), it is
symmetric, and `MaxAbs(a, a) = |a|` — all provided neither argument is the
unrepresentable `-2^31`, whose wrapping negation stays negative. -/
theorem MaxAbs_amended (a b : Int) (ha : InRange32 a) (hb : InRange32 b)
    (ha' : a ≠ -2147483648) (hb' : b ≠ -2147483648) :
    MaxAbs a b = ((max a.natAbs b.natAbs : Nat) : Int) ∧
    MaxAbs a b = MaxAbs b a ∧ MaxAbs a a = ((a.natAbs : Nat) : Int) := by
  unfold InRange32 at ha hb
  have wa : wrap32 (-a) = -a := by unfold wrap32; omega
  have wb : wrap32 (-b) = -b := by unfold wrap32; omega
  simp only [MaxAbs, wa, wb]
  refine ⟨?_, ?_, ?_⟩ <;> split_ifs <;> omega

/-- Witness for C6 (amended) at `a = -12`, `b = 7`. -/
theorem MaxAbs_amended_witness :
    MaxAbs (-12) 7 = ((max (Int.natAbs (-12)) (Int.natAbs 7) : Nat) : Int) ∧
    MaxAbs (-12) 7 = MaxAbs 7 (-12) ∧
    MaxAbs (-12) (-12) = ((Int.natAbs (-12) : Nat) : Int) :=
  MaxAbs_amended (-12) 7 (by decide) (by decide) (by decide) (by decide)

/-! ## C5: Point.Mul (corrected) -/

/-- C5 counterexample: at `p = (65536, 0)` (the 24.8 value 256.0) and
`k = 65536`, the `int32` product wraps to 0, so `Mul` returns `(0, 0)`
instead of the overflow-free value `65536 * 65536 / 256 = 16777216`. -/
theorem Mul_overflow_cex :
    Point.Mul ⟨65536, 0⟩ 65536 = ⟨0, 0⟩ ∧
    (65536 * 65536 : Int).tdiv 256 = 16777216 ∧ (0 : Int) ≠ 16777216 := by
  decide

/-- C5 amended: `Mul(k)` computes `x*k/256` per component with the product
taken in 32-bit (wrapping) arithmetic, not in a wider type; the result
equals the exact truncated `x*k/256` only when both products fit in
`int32`. -/
theorem Mul_amended (x y k : Int) (hx : InRange32 (x * k)) (hy : InRange32 (y * k)) :
    Point.Mul ⟨x, y⟩ k = ⟨(x * k).tdiv 256, (y * k).tdiv 256⟩ := by
  simp only [Point.Mul, Point.mk.injEq]
  exact ⟨by rw [wrap32_eq_self hx], by rw [wrap32_eq_self hy]⟩

/-- Witness for C5 (amended) at `p = (300, -300)`, `k = 512`. -/
theorem Mul_amended_witness : Point.Mul ⟨300, -300⟩ 512 = ⟨600, -600⟩ := by
  rw [Mul_amended 300 (-300) 512 (by decide) (by decide)]; decide

/-! ## C7: eight-fold Rot45CW (corrected) -/

/-- C7 counterexample: at `p = (2, 0)` the eight-fold `Rot45CW` returns
`(0, 0)`, deviating by 2 > 1 in the X coordinate. -/
theorem rot45cw8_cex :
    rot45cw8 ⟨2, 0⟩ = ⟨0, 0⟩ ∧ ¬ ((rot45cw8 ⟨2, 0⟩).X - 2).natAbs ≤ 1 := by decide

theorem tmod256_bound (a : Int) : -256 < a.tmod 256 ∧ a.tmod 256 < 256 := by
  rcases le_or_lt 0 a with h | h
  · have h1 := Int.tmod_nonneg 256 h
    have h2 := Int.tmod_lt_of_pos a (by norm_num : (0 : Int) < 256)
    omega
  · have h0 : (0 : Int) ≤ -a := by omega
    have h1 := Int.tmod_nonneg 256 h0
    have h2 := Int.tmod_lt_of_pos (-a) (by norm_num : (0 : Int) < 256)
    have hId1 := Int.tdiv_add_tmod a 256
    have hId2 := Int.tdiv_add_tmod (-a) 256
    have hneg := Int.neg_tdiv a 256
    omega

theorem absQ_eq (k : Int) : |(k : ℚ)| = (k.natAbs : ℚ) := by
  rw [Int.cast_natAbs, Int.cast_abs]

/-- The truncating division by 256 is within 1 of the exact quotient. -/
theorem tdiv256_error (a : Int) :
    |((a.tdiv 256 : Int) : ℚ) - (a : ℚ) / 256| < 1 := by
  have hid := Int.tdiv_add_tmod a 256
  have hb := tmod256_bound a
  have hidq : (256 : ℚ) * ((a.tdiv 256 : Int) : ℚ) + ((a.tmod 256 : Int) : ℚ) = (a : ℚ) := by
    exact_mod_cast hid
  have hm1 : (-256 : ℚ) < ((a.tmod 256 : Int) : ℚ) := by exact_mod_cast hb.1
  have hm2 : ((a.tmod 256 : Int) : ℚ) < 256 := by exact_mod_cast hb.2
  have ha : (a : ℚ) / 256 =
      ((a.tdiv 256 : Int) : ℚ) + ((a.tmod 256 : Int) : ℚ) / 256 := by
    field_simp
    linarith
  rw [abs_lt, ha]
  constructor <;> linarith

/-- The truncating division by 256 does not increase magnitude beyond the
exact quotient. -/
theorem tdiv256_le (a : Int) :
    |((a.tdiv 256 : Int) : ℚ)| ≤ |(a : ℚ)| / 256 := by
  rw [absQ_eq, absQ_eq]
  have h1 : (a.tdiv 256).natAbs = a.natAbs / 256 := Int.natAbs_tdiv a 256
  rw [h1]
  exact_mod_cast (Nat.cast_div_le : ((a.natAbs / 256 : Nat) : ℚ) ≤ _)

theorem inRange_of_absQ {d : Int} (h : |(d : ℚ)| < 2147483648) : InRange32 d := by
  have h2 : ((|d| : Int) : ℚ) < 2147483648 := by rwa [Int.cast_abs]
  have h3 : |d| < (2147483648 : Int) := by exact_mod_cast h2
  unfold InRange32
  rcases abs_lt.mp h3 with ⟨h4, h5⟩
  exact ⟨by omega, by omega⟩

/-- One application of `Rot45CW`, tracked in ℚ against the exact rational
rotation `(X, Y) ↦ ((X-Y)·181/256, (X+Y)·181/256)`: coordinate magnitudes
grow by at most a factor 181/128 and the tracking error by at most that
factor plus one unit of truncation; no `int32` narrowing occurs for inputs
bounded by 2^30. -/
theorem rotStepQ (x y : Int) (X Y B e : ℚ)
    (hx : |(x : ℚ)| ≤ B) (hy : |(y : ℚ)| ≤ B) (hB : B ≤ 1073741824)
    (hex : |(x : ℚ) - X| ≤ e) (hey : |(y : ℚ) - Y| ≤ e) :
    |((Point.Rot45CW ⟨x, y⟩).X : ℚ)| ≤ 181 / 128 * B ∧
    |((Point.Rot45CW ⟨x, y⟩).Y : ℚ)| ≤ 181 / 128 * B ∧
    |((Point.Rot45CW ⟨x, y⟩).X : ℚ) - (X - Y) * (181 / 256)| ≤ 181 / 128 * e + 1 ∧
    |((Point.Rot45CW ⟨x, y⟩).Y : ℚ) - (X + Y) * (181 / 256)| ≤ 181 / 128 * e + 1 := by
  have hsub : |(((x - y) * 181 : Int) : ℚ)| ≤ 2 * B * 181 := by
    push_cast
    rw [abs_mul]
    have h1 : |(x : ℚ) - (y : ℚ)| ≤ 2 * B := by
      have ha := abs_add (x : ℚ) (-(y : ℚ))
      rw [abs_neg] at ha
      have hb2 : (x : ℚ) - (y : ℚ) = (x : ℚ) + -(y : ℚ) := by ring
      rw [hb2]
      linarith
    have h2 : |(181 : ℚ)| = 181 := by norm_num
    rw [h2]
    linarith
  have hadd : |(((x + y) * 181 : Int) : ℚ)| ≤ 2 * B * 181 := by
    push_cast
    rw [abs_mul]
    have h1 : |(x : ℚ) + (y : ℚ)| ≤ 2 * B := by
      have ha := abs_add (x : ℚ) (y : ℚ)
      linarith
    have h2 : |(181 : ℚ)| = 181 := by norm_num
    rw [h2]
    linarith
  have hmagX : |((((x - y) * 181).tdiv 256 : Int) : ℚ)| ≤ 181 / 128 * B := by
    have h1 := tdiv256_le ((x - y) * 181)
    have h2 : |(((x - y) * 181 : Int) : ℚ)| / 256 ≤ 2 * B * 181 / 256 := by linarith
    have h3 : (2 * B * 181 : ℚ) / 256 = 181 / 128 * B := by ring
    linarith
  have hmagY : |((((x + y) * 181).tdiv 256 : Int) : ℚ)| ≤ 181 / 128 * B := by
    have h1 := tdiv256_le ((x + y) * 181)
    have h2 : |(((x + y) * 181 : Int) : ℚ)| / 256 ≤ 2 * B * 181 / 256 := by linarith
    have h3 : (2 * B * 181 : ℚ) / 256 = 181 / 128 * B := by ring
    linarith
  have hwX : wrap32 (((x - y) * 181).tdiv 256) = ((x - y) * 181).tdiv 256 := by
    apply wrap32_eq_self
    apply inRange_of_absQ
    calc |((((x - y) * 181).tdiv 256 : Int) : ℚ)| ≤ 181 / 128 * B := hmagX
      _ ≤ 181 / 128 * 1073741824 := by linarith
      _ < 2147483648 := by norm_num
  have hwY : wrap32 (((x + y) * 181).tdiv 256) = ((x + y) * 181).tdiv 256 := by
    apply wrap32_eq_self
    apply inRange_of_absQ
    calc |((((x + y) * 181).tdiv 256 : Int) : ℚ)| ≤ 181 / 128 * B := hmagY
      _ ≤ 181 / 128 * 1073741824 := by linarith
      _ < 2147483648 := by norm_num
  have hcompX : (Point.Rot45CW ⟨x, y⟩).X = ((x - y) * 181).tdiv 256 := by
    dsimp only [Point.Rot45CW]
    exact hwX
  have hcompY : (Point.Rot45CW ⟨x, y⟩).Y = ((x + y) * 181).tdiv 256 := by
    dsimp only [Point.Rot45CW]
    exact hwY
  have herrX : |((((x - y) * 181).tdiv 256 : Int) : ℚ) - (X - Y) * (181 / 256)| ≤
      181 / 128 * e + 1 := by
    have htri := abs_sub_le ((((x - y) * 181).tdiv 256 : Int) : ℚ)
      ((((x - y) * 181 : Int) : ℚ) / 256) ((X - Y) * (181 / 256))
    have herr := tdiv256_error ((x - y) * 181)
    have hmid : |(((x - y) * 181 : Int) : ℚ) / 256 - (X - Y) * (181 / 256)| ≤
        181 / 128 * e := by
      have hdd : (((x - y) * 181 : Int) : ℚ) / 256 - (X - Y) * (181 / 256) =
          (((x : ℚ) - X) - ((y : ℚ) - Y)) * (181 / 256) := by
        push_cast
        ring
      rw [hdd, abs_mul]
      have h181 : |(181 / 256 : ℚ)| = 181 / 256 := by norm_num
      rw [h181]
      have hd : |((x : ℚ) - X) - ((y : ℚ) - Y)| ≤ 2 * e := by
        have h1 := abs_add ((x : ℚ) - X) (-((y : ℚ) - Y))
        rw [abs_neg] at h1
        have h2 : ((x : ℚ) - X) - ((y : ℚ) - Y) = ((x : ℚ) - X) + -((y : ℚ) - Y) := by
          ring
        rw [h2]
        linarith
      linarith
    linarith
  have herrY : |((((x + y) * 181).tdiv 256 : Int) : ℚ) - (X + Y) * (181 / 256)| ≤
      181 / 128 * e + 1 := by
    have htri := abs_sub_le ((((x + y) * 181).tdiv 256 : Int) : ℚ)
      ((((x + y) * 181 : Int) : ℚ) / 256) ((X + Y) * (181 / 256))
    have herr := tdiv256_error ((x + y) * 181)
    have hmid : |(((x + y) * 181 : Int) : ℚ) / 256 - (X + Y) * (181 / 256)| ≤
        181 / 128 * e := by
      have hdd : (((x + y) * 181 : Int) : ℚ) / 256 - (X + Y) * (181 / 256) =
          (((x : ℚ) - X) + ((y : ℚ) - Y)) * (181 / 256) := by
        push_cast
        ring
      rw [hdd, abs_mul]
      have h181 : |(181 / 256 : ℚ)| = 181 / 256 := by norm_num
      rw [h181]
      have hd : |((x : ℚ) - X) + ((y : ℚ) - Y)| ≤ 2 * e := by
        have h1 := abs_add ((x : ℚ) - X) ((y : ℚ) - Y)
        linarith
      linarith
    linarith
  rw [hcompX, hcompY]
  exact ⟨hmagX, hmagY, herrX, herrY⟩

set_option maxHeartbeats 1600000 in
/-- C7 amended: the original ±1 bound fails (see the counterexample), but
eight applications of `Rot45CW` return to within a deviation proportional
to the point's magnitude: for `|X|, |Y| ≤ 2^24` (the 24.8 coordinate range
the spec's §7 designates as safe), each coordinate of the result differs
from the original by at most `M/1024 + 40` units, where `M = max |X| |Y|` —
the loss being the rational scaling `(2·(181/256)²)⁴ = (32761/32768)⁴ < 1`
plus at most one unit of truncation per application. -/
theorem rot45cw8_amended (x y : Int)
    (hx : |x| ≤ 16777216) (hy : |y| ≤ 16777216) :
    1024 * |(rot45cw8 ⟨x, y⟩).X - x| ≤ max |x| |y| + 40960 ∧
    1024 * |(rot45cw8 ⟨x, y⟩).Y - y| ≤ max |x| |y| + 40960 := by
  have hx0 : |(x : ℚ)| ≤ 16777216 := by
    rw [← Int.cast_abs]; exact_mod_cast hx
  have hy0 : |(y : ℚ)| ≤ 16777216 := by
    rw [← Int.cast_abs]; exact_mod_cast hy
  obtain ⟨hb1x, hb1y, he1x, he1y⟩ :=
    rotStepQ x y ((x : ℚ)) ((y : ℚ)) 16777216 0 hx0 hy0 (by norm_num)
      (by simp) (by simp)
  set p1 : Point := Point.Rot45CW ⟨x, y⟩ with hp1
  set X1 : ℚ := ((x : ℚ) - (y : ℚ)) * (181 / 256) with hX1
  set Y1 : ℚ := ((x : ℚ) + (y : ℚ)) * (181 / 256) with hY1
  obtain ⟨hb2x, hb2y, he2x, he2y⟩ :=
    rotStepQ p1.X p1.Y X1 Y1 (181 / 128 * (16777216)) (181 / 128 * (0) + 1)
      hb1x hb1y (by norm_num) he1x he1y
  set p2 : Point := Point.Rot45CW ⟨p1.X, p1.Y⟩ with hp2
  set X2 : ℚ := (X1 - Y1) * (181 / 256) with hX2
  set Y2 : ℚ := (X1 + Y1) * (181 / 256) with hY2
  obtain ⟨hb3x, hb3y, he3x, he3y⟩ :=
    rotStepQ p2.X p2.Y X2 Y2 (181 / 128 * (181 / 128 * (16777216))) (181 / 128 * (181 / 128 * (0) + 1) + 1)
      hb2x hb2y (by norm_num) he2x he2y
  set p3 : Point := Point.Rot45CW ⟨p2.X, p2.Y⟩ with hp3
  set X3 : ℚ := (X2 - Y2) * (181 / 256) with hX3
  set Y3 : ℚ := (X2 + Y2) * (181 / 256) with hY3
  obtain ⟨hb4x, hb4y, he4x, he4y⟩ :=
    rotStepQ p3.X p3.Y X3 Y3 (181 / 128 * (181 / 128 * (181 / 128 * (16777216)))) (181 / 128 * (181 / 128 * (181 / 128 * (0) + 1) + 1) + 1)
      hb3x hb3y (by norm_num) he3x he3y
  set p4 : Point := Point.Rot45CW ⟨p3.X, p3.Y⟩ with hp4
  set X4 : ℚ := (X3 - Y3) * (181 / 256) with hX4
  set Y4 : ℚ := (X3 + Y3) * (181 / 256) with hY4
  obtain ⟨hb5x, hb5y, he5x, he5y⟩ :=
    rotStepQ p4.X p4.Y X4 Y4 (181 / 128 * (181 / 128 * (181 / 128 * (181 / 128 * (16777216))))) (181 / 128 * (181 / 128 * (181 / 128 * (181 / 128 * (0) + 1) + 1) + 1) + 1)
      hb4x hb4y (by norm_num) he4x he4y
  set p5 : Point := Point.Rot45CW ⟨p4.X, p4.Y⟩ with hp5
  set X5 : ℚ := (X4 - Y4) * (181 / 256) with hX5
  set Y5 : ℚ := (X4 + Y4) * (181 / 256) with hY5
  obtain ⟨hb6x, hb6y, he6x, he6y⟩ :=
    rotStepQ p5.X p5.Y X5 Y5 (181 / 128 * (181 / 128 * (181 / 128 * (181 / 128 * (181 / 128 * (16777216)))))) (181 / 128 * (181 / 128 * (181 / 128 * (181 / 128 * (181 / 128 * (0) + 1) + 1) + 1) + 1) + 1)
      hb5x hb5y (by norm_num) he5x he5y
  set p6 : Point := Point.Rot45CW ⟨p5.X, p5.Y⟩ with hp6
  set X6 : ℚ := (X5 - Y5) * (181 / 256) with hX6
  set Y6 : ℚ := (X5 + Y5) * (181 / 256) with hY6
  obtain ⟨hb7x, hb7y, he7x, he7y⟩ :=
    rotStepQ p6.X p6.Y X6 Y6 (181 / 128 * (181 / 128 * (181 / 128 * (181 / 128 * (181 / 128 * (181 / 128 * (16777216))))))) (181 / 128 * (181 / 128 * (181 / 128 * (181 / 128 * (181 / 128 * (181 / 128 * (0) + 1) + 1) + 1) + 1) + 1) + 1)
      hb6x hb6y (by norm_num) he6x he6y
  set p7 : Point := Point.Rot45CW ⟨p6.X, p6.Y⟩ with hp7
  set X7 : ℚ := (X6 - Y6) * (181 / 256) with hX7
  set Y7 : ℚ := (X6 + Y6) * (181 / 256) with hY7
  obtain ⟨hb8x, hb8y, he8x, he8y⟩ :=
    rotStepQ p7.X p7.Y X7 Y7 (181 / 128 * (181 / 128 * (181 / 128 * (181 / 128 * (181 / 128 * (181 / 128 * (181 / 128 * (16777216)))))))) (181 / 128 * (181 / 128 * (181 / 128 * (181 / 128 * (181 / 128 * (181 / 128 * (181 / 128 * (0) + 1) + 1) + 1) + 1) + 1) + 1) + 1)
      hb7x hb7y (by norm_num) he7x he7y
  set p8 : Point := Point.Rot45CW ⟨p7.X, p7.Y⟩ with hp8
  set X8 : ℚ := (X7 - Y7) * (181 / 256) with hX8
  set Y8 : ℚ := (X7 + Y7) * (181 / 256) with hY8
  have heta : ∀ p : Point, (⟨p.X, p.Y⟩ : Point) = p := fun p => rfl
  have hq2 : p2 = Point.Rot45CW p1 := by rw [hp2, heta p1]
  have hq3 : p3 = Point.Rot45CW p2 := by rw [hp3, heta p2]
  have hq4 : p4 = Point.Rot45CW p3 := by rw [hp4, heta p3]
  have hq5 : p5 = Point.Rot45CW p4 := by rw [hp5, heta p4]
  have hq6 : p6 = Point.Rot45CW p5 := by rw [hp6, heta p5]
  have hq7 : p7 = Point.Rot45CW p6 := by rw [hp7, heta p6]
  have hq8 : p8 = Point.Rot45CW p7 := by rw [hp8, heta p7]
  have hrot8 : rot45cw8 ⟨x, y⟩ = p8 := by
    rw [rot45cw8, ← hp1, ← hq2, ← hq3, ← hq4, ← hq5, ← hq6, ← hq7, ← hq8]
  have hX8val : X8 = (32761 / 32768 : ℚ) ^ 4 * (x : ℚ) := by
    simp only [hX8, hX7, hX6, hX5, hX4, hX3, hX2, hX1,
      hY7, hY6, hY5, hY4, hY3, hY2, hY1]
    ring
  have hY8val : Y8 = (32761 / 32768 : ℚ) ^ 4 * (y : ℚ) := by
    simp only [hX7, hX6, hX5, hX4, hX3, hX2, hX1,
      hY8, hY7, hY6, hY5, hY4, hY3, hY2, hY1]
    ring
  have hE8 : (181 / 128 * (181 / 128 * (181 / 128 * (181 / 128 * (181 / 128 * (181 / 128 * (181 / 128 * (181 / 128 * (0) + 1) + 1) + 1) + 1) + 1) + 1) + 1) + 1 : ℚ) ≤ 40 := by norm_num
  have hMx : |(x : ℚ)| ≤ max |(x : ℚ)| |(y : ℚ)| := le_max_left _ _
  have hMy : |(y : ℚ)| ≤ max |(x : ℚ)| |(y : ℚ)| := le_max_right _ _
  have hM0 : (0 : ℚ) ≤ max |(x : ℚ)| |(y : ℚ)| :=
    le_trans (abs_nonneg _) (le_max_left _ _)
  have hrhoX : |X8 - (x : ℚ)| ≤ 1 / 1024 * max |(x : ℚ)| |(y : ℚ)| := by
    rw [hX8val]
    have h1 : (32761 / 32768 : ℚ) ^ 4 * (x : ℚ) - (x : ℚ) =
        -((1 - (32761 / 32768 : ℚ) ^ 4) * (x : ℚ)) := by ring
    rw [h1, abs_neg, abs_mul,
      abs_of_nonneg (by norm_num : (0 : ℚ) ≤ 1 - (32761 / 32768 : ℚ) ^ 4)]
    have h2 : (1 - (32761 / 32768 : ℚ) ^ 4) ≤ 1 / 1024 := by norm_num
    have h3 : (1 - (32761 / 32768 : ℚ) ^ 4) * |(x : ℚ)| ≤ 1 / 1024 * |(x : ℚ)| :=
      mul_le_mul_of_nonneg_right h2 (abs_nonneg _)
    linarith
  have hrhoY : |Y8 - (y : ℚ)| ≤ 1 / 1024 * max |(x : ℚ)| |(y : ℚ)| := by
    rw [hY8val]
    have h1 : (32761 / 32768 : ℚ) ^ 4 * (y : ℚ) - (y : ℚ) =
        -((1 - (32761 / 32768 : ℚ) ^ 4) * (y : ℚ)) := by ring
    rw [h1, abs_neg, abs_mul,
      abs_of_nonneg (by norm_num : (0 : ℚ) ≤ 1 - (32761 / 32768 : ℚ) ^ 4)]
    have h2 : (1 - (32761 / 32768 : ℚ) ^ 4) ≤ 1 / 1024 := by norm_num
    have h3 : (1 - (32761 / 32768 : ℚ) ^ 4) * |(y : ℚ)| ≤ 1 / 1024 * |(y : ℚ)| :=
      mul_le_mul_of_nonneg_right h2 (abs_nonneg _)
    linarith
  have hcombX : |((rot45cw8 ⟨x, y⟩).X : ℚ) - (x : ℚ)| ≤
      1 / 1024 * max |(x : ℚ)| |(y : ℚ)| + 40 := by
    rw [hrot8]
    have htri := abs_sub_le ((p8.X : Int) : ℚ) X8 ((x : ℚ))
    linarith [he8x, hrhoX]
  have hcombY : |((rot45cw8 ⟨x, y⟩).Y : ℚ) - (y : ℚ)| ≤
      1 / 1024 * max |(x : ℚ)| |(y : ℚ)| + 40 := by
    rw [hrot8]
    have htri := abs_sub_le ((p8.Y : Int) : ℚ) Y8 ((y : ℚ))
    linarith [he8y, hrhoY]
  constructor
  · have h1 : (1024 : ℚ) * |((rot45cw8 ⟨x, y⟩).X : ℚ) - (x : ℚ)| ≤
        max |(x : ℚ)| |(y : ℚ)| + 40960 := by linarith
    have h2 : ((1024 * |(rot45cw8 ⟨x, y⟩).X - x| : Int) : ℚ) ≤
        ((max |x| |y| + 40960 : Int) : ℚ) := by
      push_cast
      linarith [h1]
    exact_mod_cast h2
  · have h1 : (1024 : ℚ) * |((rot45cw8 ⟨x, y⟩).Y : ℚ) - (y : ℚ)| ≤
        max |(x : ℚ)| |(y : ℚ)| + 40960 := by linarith
    have h2 : ((1024 * |(rot45cw8 ⟨x, y⟩).Y - y| : Int) : ℚ) ≤
        ((max |x| |y| + 40960 : Int) : ℚ) := by
      push_cast
      linarith [h1]
    exact_mod_cast h2

/-- Witness for C7 (amended) at `p = (256, 0)`. -/
theorem rot45cw8_amended_witness :
    1024 * |(rot45cw8 ⟨256, 0⟩).X - 256| ≤ max |(256 : Int)| |(0 : Int)| + 40960 ∧
    1024 * |(rot45cw8 ⟨256, 0⟩).Y - 0| ≤ max |(256 : Int)| |(0 : Int)| + 40960 :=
  rot45cw8_amended 256 0 (by decide) (by decide)
end TrueFont
